import Mathlib

/-!
A verification development for the list builtin of RustPython
(vm/src/builtins/list.rs): a shallow embedding of the container
operations together with theorems checking the natural-language
specification against them.

Conventions of the embedding:
* element handles (`PyObjectRef`) are values of a type parameter `α`;
* fallible operations return `Except Err _`;
* in-place mutation is rendered as state passing: an operation that
  mutates the container returns the container's new contents;
* collaborators that live outside the embedded file (index/slice
  helpers from `sliceable.rs`, `mut_contains` from `sequence.rs`, the
  multiplication helpers) are taken as parameters, so every theorem
  about the dispatch layer holds for any implementation of them;
* the external stable-sort primitive (`timsort::try_sort_by_gt`) and a
  few runtime helpers that the repository uses but that are outside the
  embedded file are modelled from the spec; their doc comments say so.
-/

/-- Abstract error kinds of the runtime: only the kind and message matter here. -/
inductive Err where
  | typeError (msg : String)
  | indexError (msg : String)
  | valueError (msg : String)
  | userError (msg : String)
deriving DecidableEq, Repr

/-- The rich-comparison operators (`PyComparisonOp`). -/
inductive CmpOp where
  | lt | le | eq | ne | gt | ge
deriving DecidableEq, Repr

/-- Result of a rich comparison at the dispatch layer (`PyComparisonValue`). -/
inductive PyComparisonValue where
  | implemented (b : Bool)
  | notImplemented
deriving DecidableEq, Repr

/-! ## `PyList.pop` (list.rs lines 279-293) -/

namespace PyList

/-- The index normalization inside `pop` (list.rs lines 283-285): a
negative index gets the current length added. -/
def normIdx (i : Int) (n : Nat) : Int :=
  if i < 0 then i + n else i

/-- `PyList::pop`: normalize a negative index by adding the length, then
remove and return the element there; empty list or out-of-range index is
an index error.  Mirrors list.rs lines 279-293; the returned pair is
(popped element, new contents). -/
def pop (i : Option Int) (l : List α) : Except Err (α × List α) :=
  let i0 : Int := i.getD (-1)
  let i1 : Int := normIdx i0 l.length
  if l.isEmpty then
    .error (.indexError "pop from empty list")
  else if h : i1 < 0 ∨ (l.length : Int) ≤ i1 then
    .error (.indexError "pop index out of range")
  else
    .ok (l.get ⟨i1.toNat, by omega⟩, l.eraseIdx i1.toNat)

/-! ## Argument objects and materialization (list.rs lines 344-364) -/

/-- The shapes of an argument object that matter to the list code: an
exact tuple, an exact list, or a generic iterable whose successive
`next` outcomes are a given list of results (an `.error` entry is the
point at which iteration fails). -/
inductive Obj (α : Type) where
  | tuple (xs : List α)
  | list (xs : List α)
  | iterable (results : List (Except Err α))
deriving Repr

/-- Apply `f` to every element, stopping at the first error
(`Iterator::collect` over `Result`). -/
def mapExcept (f : α → Except Err β) : List α → Except Err (List β)
  | [] => .ok []
  | x :: xs =>
    match f x with
    | .error e => .error e
    | .ok y => (mapExcept f xs).map (fun rest => y :: rest)

/-- Drain a generic iterator, applying `f` to each yielded element;
an iteration error or an error of `f` aborts the drain. -/
def drainIter (f : α → Except Err β) : List (Except Err α) → Except Err (List β)
  | [] => .ok []
  | .error e :: _ => .error e
  | .ok x :: rest =>
    match f x with
    | .error e => .error e
    | .ok y => (drainIter f rest).map (fun ys => y :: ys)

/-- `extract_cloned` (list.rs lines 344-364): fast path for exact tuples
and exact lists (direct element-wise copy), otherwise drain the generic
iterator into a fresh buffer. -/
def extract_cloned (f : α → Except Err β) : Obj α → Except Err (List β)
  | .tuple xs => mapExcept f xs
  | .list xs => mapExcept f xs
  | .iterable rs => drainIter f rs

/-- Modelled from the spec: `PyObjectRef::try_to_value::<Vec<PyObjectRef>>`
(the generic iterable-materialization collaborator used by `extend`,
which is not part of the embedded file) "materializes `src` fully into a
temporary sequence (fast paths for already-ordered sequence arguments
copy directly; generic iterable arguments are drained into a temporary
buffer)"; the identity extraction of `extract_cloned` realises exactly
that description. -/
def try_to_value (x : Obj α) : Except Err (List α) :=
  extract_cloned Except.ok x

/-- `PyList::extend` (list.rs lines 119-124): materialize the argument
completely, then append all of it. On error the contents are unchanged
(the function returns no new contents). -/
def extend (l : List α) (x : Obj α) : Except Err (List α) :=
  (try_to_value x).map (fun new_elements => l ++ new_elements)

/-- `PyList::__iadd__` (list.rs lines 161-170): materialize via
`extract_cloned`, then append. -/
def iaddOp (l : List α) (other : Obj α) : Except Err (List α) :=
  (extract_cloned Except.ok other).map (fun seq => l ++ seq)

/-- `PyList::inplace_concat` (list.rs lines 151-159), the sequence-table
twin of `__iadd__`: materialize via `extract_cloned`, then append. -/
def inplace_concat (l : List α) (other : Obj α) : Except Err (List α) :=
  (extract_cloned Except.ok other).map (fun seq => l ++ seq)

/-- `PyList::concat` (list.rs lines 133-144): the other operand must
downcast to a list, otherwise a type error; on success a new container
holding `self ++ other`, neither operand touched. -/
def concat (l : List α) (other : Obj α) : Except Err (List α) :=
  match other with
  | .list o => .ok (l ++ o)
  | _ => .error (.typeError "Cannot add list and non-list")

end PyList

/-! ## Representation (list.rs lines 492-504) -/

namespace PyList

/-- Render every element, stopping at the first failing element
rendering. -/
def reprElems (er : α → Except Err String) : List α → Except Err (List String)
  | [] => .ok []
  | x :: xs =>
    match er x with
    | .error e => .error e
    | .ok s => (reprElems er xs).map (fun rest => s :: rest)

/-- Modelled from the spec: `collection_repr` (the helper from
`utils.rs`, outside the embedded file) renders "the bracketed,
comma-joined representation of each element in order, propagating any
element-rendering failure". -/
def collection_repr (er : α → Except Err String) (l : List α) : Except Err String :=
  (reprElems er l).map (fun ss => "[" ++ String.intercalate ", " ss ++ "]")

/-- `Representable::repr_str` (list.rs lines 492-504): empty list
renders as "[]"; otherwise, if the repr guard can be entered (the
instance is not already being rendered) render the elements, else
render the ellipsis placeholder.  `reentered` tells whether a repr of
the same instance is already in progress (`ReprGuard::enter` fails). -/
def repr_str (er : α → Except Err String) (reentered : Bool) (l : List α) :
    Except Err String :=
  if l.length = 0 then .ok "[]"
  else if reentered then .ok "[...]"
  else collection_repr er l

end PyList

/-! ## Reverse iterator (list.rs lines 199-205 and 592-612) -/

namespace PyList

/-- The cursor cell shared by the list iterators.  The status/position
split mirrors `PositionIterInternal` (which lives outside the embedded
file). -/
structure PositionIterInternal where
  exhausted : Bool
  position : Nat
deriving DecidableEq, Repr

/-- `PyList::__reversed__` (list.rs lines 199-205): a fresh, active
reverse iterator whose cursor is `len().saturating_sub(1)`. -/
def reversedIter (n : Nat) : PositionIterInternal :=
  { exhausted := false, position := n - 1 }

/-- Modelled from the spec: `rev_length_hint` of `PositionIterInternal`
(outside the embedded file): "reverse = cursor + 1, clamped to [0, ∞)",
and an exhausted iterator reports 0. -/
def rev_length_hint (it : PositionIterInternal) : Nat :=
  if it.exhausted then 0 else it.position + 1

/-- Modelled from the spec: `set_state` of `PositionIterInternal`
(outside the embedded file) "clamps `new_position` to
`[0, container_length]`"; the clamp function passed by the list
iterator (list.rs lines 599-604) is `pos.min(len)`. -/
def set_state (it : PositionIterInternal) (n p : Nat) : PositionIterInternal :=
  { it with position := min p n }

end PyList

/-! ## Ordering comparison (list.rs lines 473-490) -/

namespace PyList

/-- Length comparison used once the scan exhausts one side: the shorter
container orders before the longer for lt/le, after for gt/ge; equal
lengths with all elements equal are equal containers. -/
def cmpLen (op : CmpOp) (m n : Nat) : Bool :=
  match op with
  | .lt => decide (m < n)
  | .le => decide (m ≤ n)
  | .eq => decide (m = n)
  | .ne => decide (m ≠ n)
  | .gt => decide (n < m)
  | .ge => decide (n ≤ m)

/-- Modelled from the spec: `SequenceExt::richcompare` (the elementwise
lexicographic scan from `sequence.rs`, outside the embedded file): "scan
paired elements; the first differing pair determines the result under
the requested operator (using each element's own rich comparison, which
may itself fail and must propagate); if one side is a strict prefix of
the other, the shorter container is ordered before the longer for lt/le,
after for gt/ge; equal length with all elements equal yields equality".
`rc x op y` is the rich comparison `x OP y` of two elements. -/
def lexCompare (rc : α → CmpOp → α → Except Err Bool) (op : CmpOp) :
    List α → List α → Except Err Bool
  | x :: xs, y :: ys =>
    match rc x CmpOp.eq y with
    | .error e => .error e
    | .ok true => lexCompare rc op xs ys
    | .ok false =>
      match op with
      | .eq => .ok false
      | .ne => .ok true
      | _ => rc x op y
  | xs, ys => .ok (cmpLen op xs.length ys.length)

/-- A list instance: an identity (for the `is`-based fast path) plus its
contents. -/
structure PyListInst (α : Type) where
  id : Nat
  elems : List α

/-- The other operand of a comparison: a list instance or an object of
some other kind. -/
inductive CmpArg (α : Type) where
  | inst (o : PyListInst α)
  | nonList

/-- `Comparable::cmp` for `PyList` (list.rs lines 473-490): the identity
optimization answers eq/ne immediately when both operands are the same
instance; a non-list operand yields `notImplemented`; otherwise the
elementwise lexicographic comparison of the two element sequences. -/
def listCmp (rc : α → CmpOp → α → Except Err Bool) (op : CmpOp)
    (self : PyListInst α) (other : CmpArg α) : Except Err PyComparisonValue :=
  match other with
  | .inst o =>
    if (op = CmpOp.eq ∨ op = CmpOp.ne) ∧ self.id = o.id then
      .ok (.implemented (decide (op = CmpOp.eq)))
    else
      (lexCompare rc op self.elems o.elems).map .implemented
  | .nonList => .ok .notImplemented

end PyList

/-! ## Named methods and the two protocol tables (list.rs lines 113-342,
400-462)

The index/slice helpers (`sliceable.rs`), `mut_contains`
(`sequence.rs`) and the repetition helpers (`SequenceExt::mul`,
`SequenceMutExt::imul`) live outside the embedded file; they are taken
here as a bundle of parameters, so the dispatch-equivalence theorems
hold for every implementation of them.  `σ` is the type of slice
arguments. -/

namespace PyList

/-- The external collaborators called by both the named methods and the
protocol tables. `extractVal` is the materialization used for the value
of a slice assignment (`extract_cloned` applied to an arbitrary
object). -/
structure Collab (α σ : Type) where
  getitem_by_index : List α → Int → Except Err α
  getitem_by_slice : List α → σ → Except Err (List α)
  setitem_by_index : List α → Int → α → Except Err (List α)
  setitem_by_slice : List α → σ → List α → Except Err (List α)
  delitem_by_index : List α → Int → Except Err (List α)
  delitem_by_slice : List α → σ → Except Err (List α)
  mut_contains : List α → α → Except Err Bool
  mul : List α → Int → Except Err (List α)
  imul : List α → Int → Except Err (List α)
  extractVal : α → Except Err (List α)

/-- A subscript after `SequenceIndex::try_from_borrowed_object`: an
integer index or a slice. -/
inductive SeqIndex (σ : Type) where
  | int (i : Int)
  | slice (s : σ)

/-- The result of a subscript read: one element for an integer index, a
new list for a slice. -/
inductive GetItemRes (α : Type) where
  | single (x : α)
  | sublist (l : List α)
deriving Repr

/-- `PyList::__len__` (list.rs lines 183-186). -/
def lenOp (l : List α) : Nat := l.length

/-- `PyList::_getitem` (list.rs lines 207-215): dispatch an integer
index to `getitem_by_index`, a slice to `getitem_by_slice` (wrapping
the selected elements in a new list). -/
def getitemShared (C : Collab α σ) (l : List α) : SeqIndex σ → Except Err (GetItemRes α)
  | .int i => (C.getitem_by_index l i).map .single
  | .slice s => (C.getitem_by_slice l s).map .sublist

/-- `PyList::__getitem__` (list.rs lines 217-220): delegates to
`_getitem`. -/
def dunderGetitem (C : Collab α σ) (l : List α) (needle : SeqIndex σ) :
    Except Err (GetItemRes α) :=
  getitemShared C l needle

/-- `PyList::_setitem` (list.rs lines 222-230): integer index assigns in
place; slice assignment materializes the value first. -/
def setitemShared (C : Collab α σ) (l : List α) (needle : SeqIndex σ) (value : α) :
    Except Err (List α) :=
  match needle with
  | .int i => C.setitem_by_index l i value
  | .slice s =>
    match C.extractVal value with
    | .error e => .error e
    | .ok sec => C.setitem_by_slice l s sec

/-- `PyList::__setitem__` (list.rs lines 232-240): delegates to
`_setitem`. -/
def dunderSetitem (C : Collab α σ) (l : List α) (needle : SeqIndex σ) (value : α) :
    Except Err (List α) :=
  setitemShared C l needle value

/-- `PyList::_delitem` (list.rs lines 309-314). -/
def delitemShared (C : Collab α σ) (l : List α) : SeqIndex σ → Except Err (List α)
  | .int i => C.delitem_by_index l i
  | .slice s => C.delitem_by_slice l s

/-- `PyList::__delitem__` (list.rs lines 316-319): delegates to
`_delitem`. -/
def dunderDelitem (C : Collab α σ) (l : List α) (needle : SeqIndex σ) :
    Except Err (List α) :=
  delitemShared C l needle

/-- `PyList::repeat` (list.rs lines 78-82): a new list holding the
multiplied contents. -/
def repeatOp (C : Collab α σ) (l : List α) (n : Int) : Except Err (List α) :=
  C.mul l n

/-- `PyList::__mul__` (list.rs lines 242-246): delegates to `repeat`. -/
def dunderMul (C : Collab α σ) (l : List α) (n : Int) : Except Err (List α) :=
  repeatOp C l n

/-- `PyList::irepeat` (list.rs lines 84-87): multiply the contents in
place. -/
def irepeat (C : Collab α σ) (l : List α) (n : Int) : Except Err (List α) :=
  C.imul l n

/-- `PyList::__imul__` (list.rs lines 248-251): delegates to
`irepeat`. -/
def dunderImul (C : Collab α σ) (l : List α) (n : Int) : Except Err (List α) :=
  irepeat C l n

/-- `PyList::__add__` (list.rs lines 146-149): delegates to `concat`. -/
def dunderAdd (l : List α) (other : Obj α) : Except Err (List α) :=
  concat l other

/-- `PyList::__contains__` (list.rs lines 258-261): delegates to
`mut_contains`. -/
def dunderContains (C : Collab α σ) (l : List α) (x : α) : Except Err Bool :=
  C.mut_contains l x

/-! The mapping protocol table (list.rs lines 400-418). -/

/-- Mapping table `length`. -/
def mapping_length (l : List α) : Nat := lenOp l

/-- Mapping table `subscript`: calls `_getitem`. -/
def mapping_subscript (C : Collab α σ) (l : List α) (needle : SeqIndex σ) :
    Except Err (GetItemRes α) :=
  getitemShared C l needle

/-- Mapping table `ass_subscript`: a present value means assignment
(`_setitem`), an absent one deletion (`_delitem`). -/
def mapping_ass_subscript (C : Collab α σ) (l : List α) (needle : SeqIndex σ)
    (value : Option α) : Except Err (List α) :=
  match value with
  | some v => setitemShared C l needle v
  | none => delitemShared C l needle

/-! The sequence protocol table (list.rs lines 420-462). -/

/-- Sequence table `length`. -/
def sequence_length (l : List α) : Nat := lenOp l

/-- Sequence table `concat`: calls `concat`, hence the same same-kind
type check. -/
def sequence_concat (l : List α) (other : Obj α) : Except Err (List α) :=
  concat l other

/-- Sequence table `repeat`: calls `repeat`. -/
def sequence_repeat (C : Collab α σ) (l : List α) (n : Int) : Except Err (List α) :=
  repeatOp C l n

/-- Sequence table `item`: calls `getitem_by_index` directly. -/
def sequence_item (C : Collab α σ) (l : List α) (i : Int) : Except Err α :=
  C.getitem_by_index l i

/-- Sequence table `ass_item`: a present value means
`setitem_by_index`, an absent one `delitem_by_index`. -/
def sequence_ass_item (C : Collab α σ) (l : List α) (i : Int) (value : Option α) :
    Except Err (List α) :=
  match value with
  | some v => C.setitem_by_index l i v
  | none => C.delitem_by_index l i

/-- Sequence table `contains`: calls `mut_contains`. -/
def sequence_contains (C : Collab α σ) (l : List α) (x : α) : Except Err Bool :=
  C.mut_contains l x

/-- Sequence table `inplace_concat`: calls `PyList::inplace_concat`. -/
def sequence_inplace_concat (l : List α) (other : Obj α) : Except Err (List α) :=
  inplace_concat l other

/-- Sequence table `inplace_repeat`: calls `irepeat`. -/
def sequence_inplace_repeat (C : Collab α σ) (l : List α) (n : Int) :
    Except Err (List α) :=
  irepeat C l n

end PyList

/-! ## The sort engine (list.rs lines 321-336 and 506-531)

During `PyList::sort` the container's visible storage is the swapped-in
placeholder; the user-supplied key function and the element rich
comparison may read or mutate it (reentrant callbacks).  A callback is
therefore a function that also receives and returns the placeholder
contents.  Each callback invocation is additionally recorded in an
event log so that call-order properties can be stated. -/

namespace PyList

/-- One observable callback invocation during a sort: a key-function
call on an element, or a comparison of two (projected) values. -/
inductive Event (α : Type) where
  | key (arg : α)
  | cmp (a b : α)
deriving DecidableEq, Repr

/-- A user key function: takes the element and the container's current
visible storage, returns the key (or an error) and the new storage. -/
def KeyF (α : Type) : Type :=
  α → List α → Except Err α × List α

/-- The element rich comparison (`rich_compare_bool`), likewise able to
touch the container's visible storage. -/
def RichF (α : Type) : Type :=
  CmpOp → α → α → List α → Except Err Bool × List α

/-- Insert `x` into the already-sorted `acc`, asking the fallible
"greater than" comparator `gt y x` at each position; `prj` names the
value that the comparison is logged on (for the keyed sort, the
projected key of a pair). -/
def insertSorted (gt : β → β → List α → Except Err Bool × List α) (prj : β → α)
    (x : β) : List β → List α → Except Err (List β) × List α × List (Event α)
  | [], s => (.ok [x], s, [])
  | y :: ys, s =>
    match gt y x s with
    | (.error e, s') => (.error e, s', [.cmp (prj y) (prj x)])
    | (.ok true, s') => (.ok (x :: y :: ys), s', [.cmp (prj y) (prj x)])
    | (.ok false, s') =>
      match insertSorted gt prj x ys s' with
      | (r, s'', lg) => (r.map (fun l => y :: l), s'', .cmp (prj y) (prj x) :: lg)

/-- Modelled from the spec: the external stable-sort primitive
(`timsort::try_sort_by_gt`, an assumed collaborator that is "fallible on
comparator error"), realised as a stable insertion sort driven by the
supplied "greater than" comparator.  The result carries a status and
the buffer contents: on success the stably sorted sequence, on a
comparator error the buffer in its intermediate (permuted) state. -/
def try_sort_by_gt (gt : β → β → List α → Except Err Bool × List α) (prj : β → α) :
    List β → List β → List α →
      (Except Err Unit × List β) × List α × List (Event α)
  | [], acc, s => ((.ok (), acc), s, [])
  | x :: xs, acc, s =>
    match insertSorted gt prj x acc s with
    | (.ok acc', s', lg) =>
      match try_sort_by_gt gt prj xs acc' s' with
      | (rb, s'', lg') => (rb, s'', lg ++ lg')
    | (.error e, s', lg) => ((.error e, acc ++ x :: xs), s', lg)

/-- The key-projection pass of `do_sort` (list.rs lines 520-523): call
the key function once per element, left to right, pairing each element
with its key; the first key error aborts the pass. -/
def mapKeys (kf : KeyF α) : List α → List α →
    Except Err (List (α × α)) × List α × List (Event α)
  | [], s => (.ok [], s, [])
  | x :: xs, s =>
    match kf x s with
    | (.error e, s') => (.error e, s', [.key x])
    | (.ok kx, s') =>
      match mapKeys kf xs s' with
      | (r, s'', lg) => (r.map (fun rest => (x, kx) :: rest), s'', .key x :: lg)

/-- `do_sort` (list.rs lines 506-531): select the compare operator (`Lt`
for a reverse sort, `Gt` otherwise — the opposite operator, not a
negated result); with a key function, project every element up front,
sort the (element, key) pairs comparing only the keys, then drop the
keys; without one, sort the values directly.  The returned buffer is
the final state of the working vector: on a key error or a comparator
error under a key function the original `values` (the local pair vector
is discarded), on a comparator error without a key function the
partially sorted vector. -/
def do_sort (rich : RichF α) (key_func : Option (KeyF α)) (reverse : Bool)
    (values : List α) (s : List α) :
    (Except Err Unit × List α) × List α × List (Event α) :=
  let op := if reverse then CmpOp.lt else CmpOp.gt
  match key_func with
  | some kf =>
    match mapKeys kf values s with
    | (.error e, s', lg) => ((.error e, values), s', lg)
    | (.ok items, s', lg) =>
      match try_sort_by_gt (fun a b st => rich op a.2 b.2 st) Prod.snd items [] s' with
      | ((.ok _, sorted), s'', lg') =>
        ((.ok (), sorted.map Prod.fst), s'', lg ++ lg')
      | ((.error e, _), s'', lg') => ((.error e, values), s'', lg ++ lg')
  | none =>
    try_sort_by_gt (fun a b st => rich op a b st) id values [] s

/-- `PyList::sort` (list.rs lines 321-336): take the contents out
(leaving the container's visible storage empty), run `do_sort` on the
local buffer, swap the buffer back in (so the sorted result is
installed and the reentrant additions are captured), surface a sort
error first, otherwise fail with the mutated-during-sort error when the
captured additions are non-empty.  Returns (status, final contents,
callback log). -/
def sortOp (rich : RichF α) (key_func : Option (KeyF α)) (reverse : Bool)
    (contents : List α) : Except Err Unit × List α × List (Event α) :=
  match do_sort rich key_func reverse contents [] with
  | ((res, buf), placeholder, lg) =>
    match res with
    | .error e => (.error e, buf, lg)
    | .ok _ =>
      if placeholder.isEmpty then (.ok (), buf, lg)
      else (.error (.valueError "list modified during sort"), buf, lg)

/-! ### The effect-free skeleton of the stable sort, for stating and
proving what a successful sort computes. -/

/-- Effect-free insertion into a sorted list: `x` goes immediately
before the first element strictly greater than it, hence after every
element equal to it (stability). -/
def pinsert (gtb : β → β → Bool) (x : β) : List β → List β
  | [] => [x]
  | y :: ys => if gtb y x then x :: y :: ys else y :: pinsert gtb x ys

/-- Effect-free stable insertion sort, processing the input left to
right into the sorted accumulator. -/
def psortAux (gtb : β → β → Bool) : List β → List β → List β
  | [], acc => acc
  | x :: xs, acc => psortAux gtb xs (pinsert gtb x acc)

/-! ### Concrete callback shapes used by the claims. -/

/-- A key function that computes `k x` and reentrantly appends `app x`
to the container it is sorting. -/
def appendKey (k : α → α) (app : α → List α) : KeyF α :=
  fun x s => (Except.ok (k x), s ++ app x)

/-- A side-effect-free key function. -/
def pureKey (k : α → α) : KeyF α :=
  fun x s => (Except.ok (k x), s)

/-- A key function that fails with `err` on elements satisfying `P`
(and still appends, so that the error wins over the reentrancy
check). -/
def condKey (P : α → Bool) (err : Err) (k : α → α) (app : α → List α) : KeyF α :=
  fun x s =>
    if P x then (Except.error err, s ++ app x) else (Except.ok (k x), s ++ app x)

/-- A side-effect-free element rich comparison driven by an integer
weight. -/
def pureRich (w : α → Int) : RichF α :=
  fun op a b s =>
    (Except.ok (match op with
      | .lt => decide (w a < w b)
      | .le => decide (w a ≤ w b)
      | .eq => decide (w a = w b)
      | .ne => decide (w a ≠ w b)
      | .gt => decide (w b < w a)
      | .ge => decide (w b ≤ w a)), s)

/-- An element rich comparison that always raises `e` (and leaves the
container's storage alone): the shape of a failing comparator. -/
def errRich (e : Err) : RichF α :=
  fun _ _ _ s => (Except.error e, s)

/-- Everything the container accumulates while the key function runs
over the whole input. -/
def appAll (app : α → List α) : List α → List α
  | [] => []
  | x :: xs => app x ++ appAll app xs

/-- The weight by which a keyed sort orders a (element, key) pair:
the key weight for an ascending sort, its negation for a descending
one (the selected operator is `Lt` there). -/
def keyWeight (w : α → Int) (reverse : Bool) : α × α → Int :=
  fun p => if reverse then -(w p.2) else w p.2

/-- The boolean "greater" test a `pureRich` comparator realises on
pairs under the operator selected by `do_sort`. -/
def keyGtb (w : α → Int) (reverse : Bool) : α × α → α × α → Bool :=
  fun a b => decide (keyWeight w reverse a > keyWeight w reverse b)

/-- A concrete, total element rich comparison on integers, used to
instantiate dispatch-layer theorems at concrete inputs. -/
def rcInt : Int → CmpOp → Int → Except Err Bool :=
  fun a op b =>
    Except.ok (match op with
      | .lt => decide (a < b)
      | .le => decide (a ≤ b)
      | .eq => decide (a = b)
      | .ne => decide (a ≠ b)
      | .gt => decide (b < a)
      | .ge => decide (b ≤ a))

/-- A concrete bundle of external collaborators over integer elements
and trivial slices, used to instantiate dispatch-layer theorems at
concrete inputs. -/
def trivialCollab : Collab Int Unit where
  getitem_by_index := fun l i =>
    match l[i.toNat]? with
    | some x => Except.ok x
    | none => Except.error (Err.indexError "index out of range")
  getitem_by_slice := fun l _ => Except.ok l
  setitem_by_index := fun l i v => Except.ok (l.set i.toNat v)
  setitem_by_slice := fun _ _ sec => Except.ok sec
  delitem_by_index := fun l i => Except.ok (l.eraseIdx i.toNat)
  delitem_by_slice := fun _ _ => Except.ok []
  mut_contains := fun l x => Except.ok (l.contains x)
  mul := fun l _ => Except.ok (l ++ l)
  imul := fun l _ => Except.ok (l ++ l)
  extractVal := fun v => Except.ok [v]

theorem pinsert_perm (gtb : β → β → Bool) (x : β) (l : List β) :
    (pinsert gtb x l).Perm (x :: l) := by
  induction l with
  | nil => simp [pinsert]
  | cons y ys ih =>
    simp only [pinsert]
    split
    · exact List.Perm.refl _
    · exact (ih.cons y).trans (List.Perm.swap x y ys)

theorem psortAux_perm (gtb : β → β → Bool) (l acc : List β) :
    (psortAux gtb l acc).Perm (acc ++ l) := by
  induction l generalizing acc with
  | nil => simp [psortAux]
  | cons x xs ih =>
    simp only [psortAux]
    refine (ih _).trans ?_
    refine ((pinsert_perm gtb x acc).append_right xs).trans ?_
    simpa using (@List.perm_middle _ x acc xs).symm

theorem pinsert_sorted (v : β → Int) (gtb : β → β → Bool)
    (hgt : ∀ a b, gtb a b = decide (v a > v b)) (x : β) (l : List β)
    (hl : l.Pairwise (fun a b => v a ≤ v b)) :
    (pinsert gtb x l).Pairwise (fun a b => v a ≤ v b) := by
  induction l with
  | nil => simp [pinsert]
  | cons y ys ih =>
    rw [List.pairwise_cons] at hl
    obtain ⟨hy, hys⟩ := hl
    simp only [pinsert, hgt]
    by_cases h : v x < v y
    · rw [if_pos (by simpa using h)]
      refine List.Pairwise.cons ?_ (List.Pairwise.cons hy hys)
      intro z hz
      rcases List.mem_cons.mp hz with rfl | hz
      · omega
      · have := hy z hz
        omega
    · rw [if_neg (by simpa using h)]
      refine List.Pairwise.cons ?_ (ih hys)
      intro z hz
      have hz' := (pinsert_perm gtb x ys).mem_iff.mp hz
      rcases List.mem_cons.mp hz' with rfl | hz'
      · omega
      · exact hy z hz'

theorem psortAux_sorted (v : β → Int) (gtb : β → β → Bool)
    (hgt : ∀ a b, gtb a b = decide (v a > v b)) (l acc : List β)
    (hacc : acc.Pairwise (fun a b => v a ≤ v b)) :
    (psortAux gtb l acc).Pairwise (fun a b => v a ≤ v b) := by
  induction l generalizing acc with
  | nil => simpa [psortAux] using hacc
  | cons x xs ih =>
    simp only [psortAux]
    exact ih _ (pinsert_sorted v gtb hgt x acc hacc)

theorem pinsert_filter (v : β → Int) (gtb : β → β → Bool)
    (hgt : ∀ a b, gtb a b = decide (v a > v b)) (c : Int) (x : β) (l : List β)
    (hl : l.Pairwise (fun a b => v a ≤ v b)) :
    (pinsert gtb x l).filter (fun z => decide (v z = c)) =
      if v x = c then l.filter (fun z => decide (v z = c)) ++ [x]
      else l.filter (fun z => decide (v z = c)) := by
  induction l with
  | nil => by_cases h : v x = c <;> simp [pinsert, h]
  | cons y ys ih =>
    rw [List.pairwise_cons] at hl
    obtain ⟨hy, hys⟩ := hl
    simp only [pinsert, hgt]
    by_cases h : v x < v y
    · rw [if_pos (by simpa using h)]
      by_cases hx : v x = c
      · have hnil : (y :: ys).filter (fun z => decide (v z = c)) = [] := by
          refine List.filter_eq_nil_iff.mpr ?_
          intro a ha
          have hva : v y ≤ v a := by
            rcases List.mem_cons.mp ha with rfl | ha
            · omega
            · exact hy a ha
          simp only [decide_eq_true_eq]
          omega
        rw [if_pos hx, List.filter_cons, hnil]
        simp [hx]
      · simp [List.filter_cons, hx]
    · rw [if_neg (by simpa using h)]
      rw [List.filter_cons, ih hys]
      by_cases hx : v x = c <;> by_cases hyc : v y = c <;>
        simp [List.filter_cons, hx, hyc]

theorem psortAux_filter (v : β → Int) (gtb : β → β → Bool)
    (hgt : ∀ a b, gtb a b = decide (v a > v b)) (c : Int) (l acc : List β)
    (hacc : acc.Pairwise (fun a b => v a ≤ v b)) :
    (psortAux gtb l acc).filter (fun z => decide (v z = c)) =
      acc.filter (fun z => decide (v z = c)) ++ l.filter (fun z => decide (v z = c)) := by
  induction l generalizing acc with
  | nil => simp [psortAux]
  | cons x xs ih =>
    simp only [psortAux]
    rw [ih _ (pinsert_sorted v gtb hgt x acc hacc),
      pinsert_filter v gtb hgt c x acc hacc]
    by_cases hx : v x = c <;> simp [List.filter_cons, hx]

/-! ### Reduction of the effectful sort to the skeleton, and
structure-independent facts about its buffer. -/

theorem insertSorted_pure (gt : β → β → List α → Except Err Bool × List α)
    (gtb : β → β → Bool) (prj : β → α)
    (hc : ∀ y z s, gt y z s = (Except.ok (gtb y z), s)) (x : β) (l : List β)
    (s : List α) :
    ∃ lg, insertSorted gt prj x l s = (Except.ok (pinsert gtb x l), s, lg) ∧
      ∀ e ∈ lg, ∃ A B, A ∈ x :: l ∧ B ∈ x :: l ∧ e = Event.cmp (prj A) (prj B) := by
  induction l generalizing s with
  | nil => exact ⟨[], by simp [insertSorted, pinsert], by simp⟩
  | cons y ys ih =>
    by_cases h : gtb y x
    · refine ⟨[.cmp (prj y) (prj x)], ?_, ?_⟩
      · simp [insertSorted, hc, h, pinsert]
      · intro e he
        simp only [List.mem_singleton] at he
        exact ⟨y, x, by simp, by simp, he⟩
    · obtain ⟨lg, hrec, hev⟩ := ih s
      refine ⟨.cmp (prj y) (prj x) :: lg, ?_, ?_⟩
      · simp [insertSorted, hc, h, hrec, pinsert, Except.map]
      · intro e he
        rcases List.mem_cons.mp he with rfl | he
        · exact ⟨y, x, by simp, by simp, rfl⟩
        · obtain ⟨A, B, hA, hB, hAB⟩ := hev e he
          refine ⟨A, B, ?_, ?_, hAB⟩
          · rcases List.mem_cons.mp hA with rfl | hA <;> simp [hA]
          · rcases List.mem_cons.mp hB with rfl | hB <;> simp [hB]

theorem try_sort_pure (gt : β → β → List α → Except Err Bool × List α)
    (gtb : β → β → Bool) (prj : β → α)
    (hc : ∀ y z s, gt y z s = (Except.ok (gtb y z), s)) (l : List β) :
    ∀ (acc : List β) (s : List α),
      ∃ lg, try_sort_by_gt gt prj l acc s = ((Except.ok (), psortAux gtb l acc), s, lg) ∧
        ∀ e ∈ lg, ∃ A B, A ∈ l ++ acc ∧ B ∈ l ++ acc ∧ e = Event.cmp (prj A) (prj B) := by
  induction l with
  | nil => intro acc s; exact ⟨[], by simp [try_sort_by_gt, psortAux], by simp⟩
  | cons x xs ih =>
    intro acc s
    obtain ⟨lg1, h1, h1e⟩ := insertSorted_pure gt gtb prj hc x acc s
    obtain ⟨lg2, h2, h2e⟩ := ih (pinsert gtb x acc) s
    have lift1 : ∀ A : β, A ∈ x :: acc → A ∈ (x :: xs) ++ acc := by
      intro A hA
      rcases List.mem_cons.mp hA with rfl | hA <;> simp [hA]
    have lift2 : ∀ A : β, A ∈ xs ++ pinsert gtb x acc → A ∈ (x :: xs) ++ acc := by
      intro A hA
      rcases List.mem_append.mp hA with hA | hA
      · simp [hA]
      · have h' := (pinsert_perm gtb x acc).mem_iff.mp hA
        rcases List.mem_cons.mp h' with rfl | h' <;> simp [h']
    refine ⟨lg1 ++ lg2, ?_, ?_⟩
    · simp [try_sort_by_gt, h1, h2, psortAux]
    · intro e he
      rcases List.mem_append.mp he with he | he
      · obtain ⟨A, B, hA, hB, hAB⟩ := h1e e he
        exact ⟨A, B, lift1 A hA, lift1 B hB, hAB⟩
      · obtain ⟨A, B, hA, hB, hAB⟩ := h2e e he
        exact ⟨A, B, lift2 A hA, lift2 B hB, hAB⟩

theorem insertSorted_ok_perm (gt : β → β → List α → Except Err Bool × List α)
    (prj : β → α) (x : β) (l : List β) :
    ∀ (s : List α) (r : List β) (s' : List α) (lg : List (Event α)),
      insertSorted gt prj x l s = (Except.ok r, s', lg) → r.Perm (x :: l) := by
  induction l with
  | nil =>
    intro s r s' lg h
    simp only [insertSorted, Prod.mk.injEq, Except.ok.injEq] at h
    rw [← h.1]
  | cons y ys ih =>
    intro s r s' lg h
    simp only [insertSorted] at h
    rcases hgt : gt y x s with ⟨rc, s1⟩
    rw [hgt] at h
    match rc with
    | .error e => simp at h
    | .ok true =>
      simp only [Prod.mk.injEq, Except.ok.injEq] at h
      rw [← h.1]
    | .ok false =>
      rcases hrec : insertSorted gt prj x ys s1 with ⟨r0, s2, lg0⟩
      simp only [hrec] at h
      match r0, h with
      | .ok r1, h =>
        simp only [Except.map, Prod.mk.injEq, Except.ok.injEq] at h
        rw [← h.1]
        exact ((ih s1 r1 s2 lg0 hrec).cons y).trans (List.Perm.swap x y ys)

theorem try_sort_buf_perm (gt : β → β → List α → Except Err Bool × List α)
    (prj : β → α) (l : List β) :
    ∀ (acc : List β) (s : List α),
      ((try_sort_by_gt gt prj l acc s).1.2).Perm (acc ++ l) := by
  induction l with
  | nil => intro acc s; simp [try_sort_by_gt]
  | cons x xs ih =>
    intro acc s
    simp only [try_sort_by_gt]
    rcases hins : insertSorted gt prj x acc s with ⟨r, s1, lg⟩
    match r with
    | .ok acc' =>
      rcases hrec : try_sort_by_gt gt prj xs acc' s1 with ⟨⟨st, buf⟩, s2, lg2⟩
      have hperm : buf.Perm (acc' ++ xs) := by
        have := ih acc' s1
        rw [hrec] at this
        exact this
      simp only [hrec]
      refine hperm.trans ?_
      refine ((insertSorted_ok_perm gt prj x acc s acc' s1 lg hins).append_right xs).trans ?_
      simpa using (@List.perm_middle _ x acc xs).symm
    | .error e => simp

theorem mapKeys_ok_fst (kf : KeyF α) (l : List α) :
    ∀ (s : List α) (items : List (α × α)) (s' : List α) (lg : List (Event α)),
      mapKeys kf l s = (Except.ok items, s', lg) → items.map Prod.fst = l := by
  induction l with
  | nil =>
    intro s items s' lg h
    simp only [mapKeys, Prod.mk.injEq, Except.ok.injEq] at h
    rw [← h.1]
    rfl
  | cons x xs ih =>
    intro s items s' lg h
    simp only [mapKeys] at h
    rcases hk : kf x s with ⟨rk, s1⟩
    rw [hk] at h
    match rk with
    | .error e => simp at h
    | .ok kx =>
      rcases hrec : mapKeys kf xs s1 with ⟨r0, s2, lg0⟩
      simp only [hrec] at h
      match r0, h with
      | .ok rest, h =>
        simp only [Except.map, Prod.mk.injEq, Except.ok.injEq] at h
        rw [← h.1]
        simp [ih s1 rest s2 lg0 hrec]

theorem pureRich_keyGtb (w : α → Int) (reverse : Bool) (y z : α × α) (s : List α) :
    pureRich w (if reverse then CmpOp.lt else CmpOp.gt) y.2 z.2 s =
      (Except.ok (keyGtb w reverse y z), s) := by
  cases reverse <;>
    simp only [pureRich, keyGtb, keyWeight, if_true, if_false, Bool.false_eq_true,
      Prod.mk.injEq, Except.ok.injEq, and_true] <;>
    exact decide_eq_decide.mpr (by omega)

theorem mapKeys_appendKey (k : α → α) (app : α → List α) (l : List α) (s : List α) :
    mapKeys (appendKey k app) l s =
      (Except.ok (l.map (fun x => (x, k x))), s ++ appAll app l, l.map Event.key) := by
  induction l generalizing s with
  | nil => simp [mapKeys, appAll]
  | cons x xs ih => simp [mapKeys, appendKey, ih, appAll, Except.map]

theorem mapKeys_pureKey (k : α → α) (l : List α) (s : List α) :
    mapKeys (pureKey k) l s =
      (Except.ok (l.map (fun x => (x, k x))), s, l.map Event.key) := by
  induction l generalizing s with
  | nil => simp [mapKeys]
  | cons x xs ih => simp [mapKeys, pureKey, ih, Except.map]

theorem mapKeys_condKey_err (P : α → Bool) (err : Err) (k : α → α)
    (app : α → List α) (l : List α) :
    ∀ s : List α, (∃ x ∈ l, P x = true) →
      ∃ s₂ lg, mapKeys (condKey P err k app) l s = (Except.error err, s₂, lg) := by
  induction l with
  | nil => simp
  | cons x xs ih =>
    intro s hx
    by_cases hP : P x = true
    · exact ⟨s ++ app x, [Event.key x], by simp [mapKeys, condKey, hP]⟩
    · have hxs : ∃ y ∈ xs, P y = true := by
        rcases hx with ⟨y, hy, hPy⟩
        rcases List.mem_cons.mp hy with rfl | hy
        · exact absurd hPy hP
        · exact ⟨y, hy, hPy⟩
      obtain ⟨s₂, lg, h⟩ := ih (s ++ app x) hxs
      refine ⟨s₂, Event.key x :: lg, ?_⟩
      simp [mapKeys, condKey, hP, h, Except.map]

theorem do_sort_appendKey (w : α → Int) (k : α → α) (app : α → List α)
    (reverse : Bool) (l s : List α) :
    ∃ cmps,
      do_sort (pureRich w) (some (appendKey k app)) reverse l s =
        ((Except.ok (),
            (psortAux (keyGtb w reverse) (l.map (fun x => (x, k x))) []).map Prod.fst),
          s ++ appAll app l, l.map Event.key ++ cmps) ∧
      ∀ e ∈ cmps, ∃ a b, a ∈ l ∧ b ∈ l ∧ e = Event.cmp (k a) (k b) := by
  have hc : ∀ (y z : α × α) (st : List α),
      (fun (a b : α × α) st =>
          pureRich w (if reverse then CmpOp.lt else CmpOp.gt) a.2 b.2 st) y z st =
        (Except.ok (keyGtb w reverse y z), st) :=
    fun y z st => pureRich_keyGtb w reverse y z st
  obtain ⟨lg, hsort, hev⟩ := try_sort_pure _ (keyGtb w reverse) Prod.snd hc
    (l.map (fun x => (x, k x))) [] (s ++ appAll app l)
  refine ⟨lg, ?_, ?_⟩
  · simp only [do_sort, mapKeys_appendKey, hsort]
  · intro e he
    obtain ⟨A, B, hA, hB, hAB⟩ := hev e he
    rw [List.append_nil] at hA hB
    obtain ⟨a, ha, hEa⟩ := List.mem_map.mp hA
    obtain ⟨b, hb, hEb⟩ := List.mem_map.mp hB
    refine ⟨a, b, ha, hb, ?_⟩
    rw [hAB, ← hEa, ← hEb]

theorem do_sort_pureKey (w : α → Int) (k : α → α)
    (reverse : Bool) (l s : List α) :
    ∃ cmps,
      do_sort (pureRich w) (some (pureKey k)) reverse l s =
        ((Except.ok (),
            (psortAux (keyGtb w reverse) (l.map (fun x => (x, k x))) []).map Prod.fst),
          s, l.map Event.key ++ cmps) ∧
      ∀ e ∈ cmps, ∃ a b, a ∈ l ∧ b ∈ l ∧ e = Event.cmp (k a) (k b) := by
  have hc : ∀ (y z : α × α) (st : List α),
      (fun (a b : α × α) st =>
          pureRich w (if reverse then CmpOp.lt else CmpOp.gt) a.2 b.2 st) y z st =
        (Except.ok (keyGtb w reverse y z), st) :=
    fun y z st => pureRich_keyGtb w reverse y z st
  obtain ⟨lg, hsort, hev⟩ := try_sort_pure _ (keyGtb w reverse) Prod.snd hc
    (l.map (fun x => (x, k x))) [] s
  refine ⟨lg, ?_, ?_⟩
  · simp only [do_sort, mapKeys_pureKey, hsort]
  · intro e he
    obtain ⟨A, B, hA, hB, hAB⟩ := hev e he
    rw [List.append_nil] at hA hB
    obtain ⟨a, ha, hEa⟩ := List.mem_map.mp hA
    obtain ⟨b, hb, hEb⟩ := List.mem_map.mp hB
    refine ⟨a, b, ha, hb, ?_⟩
    rw [hAB, ← hEa, ← hEb]

/-- The sorted buffer a keyed pure sort computes holds exactly the
pre-sort elements, is ordered by key weight in the requested direction,
and is stable: every weight class keeps its pre-sort order. -/
theorem keyed_sorted_props (w : α → Int) (k : α → α) (reverse : Bool) (l : List α) :
    ((psortAux (keyGtb w reverse) (l.map (fun x => (x, k x))) []).map Prod.fst).Perm l ∧
    (reverse = false →
      ((psortAux (keyGtb w reverse) (l.map (fun x => (x, k x))) []).map Prod.fst).Pairwise
        (fun a b => w (k a) ≤ w (k b))) ∧
    (reverse = true →
      ((psortAux (keyGtb w reverse) (l.map (fun x => (x, k x))) []).map Prod.fst).Pairwise
        (fun a b => w (k b) ≤ w (k a))) ∧
    (∀ c : Int,
      ((psortAux (keyGtb w reverse) (l.map (fun x => (x, k x))) []).map Prod.fst).filter
          (fun x => decide (w (k x) = c)) =
        l.filter (fun x => decide (w (k x) = c))) := by
  set items : List (α × α) := l.map (fun x => (x, k x)) with hitems
  set S : List (α × α) := psortAux (keyGtb w reverse) items [] with hS
  have hgt : ∀ a b : α × α,
      keyGtb w reverse a b = decide (keyWeight w reverse a > keyWeight w reverse b) :=
    fun a b => rfl
  have hSperm : S.Perm items := by
    simpa using psortAux_perm (keyGtb w reverse) items []
  have hfst : items.map Prod.fst = l := by
    rw [hitems, List.map_map]
    exact List.map_id l
  have hmemS : ∀ z ∈ S, (z : α × α).2 = k z.1 := by
    intro z hz
    have hz' : z ∈ items := hSperm.mem_iff.mp hz
    obtain ⟨a, _, rfl⟩ := List.mem_map.mp hz'
    rfl
  have hmemI : ∀ z ∈ items, (z : α × α).2 = k z.1 := by
    intro z hz
    obtain ⟨a, _, rfl⟩ := List.mem_map.mp hz
    rfl
  have hsorted : S.Pairwise
      (fun a b => keyWeight w reverse a ≤ keyWeight w reverse b) :=
    psortAux_sorted (keyWeight w reverse) (keyGtb w reverse) hgt items [] List.Pairwise.nil
  refine ⟨?_, ?_, ?_, ?_⟩
  · exact (hSperm.map Prod.fst).trans (by rw [hfst])
  · intro hrev
    rw [List.pairwise_map]
    refine List.Pairwise.imp_of_mem ?_ hsorted
    intro a b ha hb hab
    rw [← hmemS a ha, ← hmemS b hb]
    simpa [keyWeight, hrev] using hab
  · intro hrev
    rw [List.pairwise_map]
    refine List.Pairwise.imp_of_mem ?_ hsorted
    intro a b ha hb hab
    rw [← hmemS a ha, ← hmemS b hb]
    simp only [keyWeight, hrev, if_true] at hab
    omega
  · intro c
    rw [List.filter_map]
    have hcongrS : S.filter ((fun x => decide (w (k x) = c)) ∘ Prod.fst) =
        S.filter (fun z => decide (keyWeight w reverse z =
          if reverse then -c else c)) := by
      refine List.filter_congr ?_
      intro z hz
      rw [Function.comp_apply, ← hmemS z hz]
      cases reverse <;> simp [keyWeight]
    have hcongrI : items.filter (fun z => decide (keyWeight w reverse z =
        if reverse then -c else c)) =
        items.filter ((fun x => decide (w (k x) = c)) ∘ Prod.fst) := by
      refine List.filter_congr ?_
      intro z hz
      rw [Function.comp_apply, ← hmemI z hz]
      cases reverse <;> simp [keyWeight]
    rw [hcongrS]
    rw [hS, psortAux_filter (keyWeight w reverse) (keyGtb w reverse) hgt
      (if reverse then -c else c) items [] List.Pairwise.nil]
    rw [List.filter_nil, List.nil_append, hcongrI, ← List.filter_map, hfst]

/-! ### Remaining helper lemmas. -/

theorem reprElems_pure (r : α → String) (l : List α) :
    reprElems (fun a => Except.ok (r a)) l = Except.ok (l.map r) := by
  induction l with
  | nil => rfl
  | cons x xs ih => simp [reprElems, ih, Except.map]

theorem reprElems_err (er : α → Except Err String) (x : α) (e : Err)
    (hx : er x = Except.error e) (l₂ : List α) (l₁ : List α)
    (h1 : ∀ y ∈ l₁, ∃ s, er y = Except.ok s) :
    reprElems er (l₁ ++ x :: l₂) = Except.error e := by
  induction l₁ with
  | nil => simp [reprElems, hx]
  | cons y ys ih =>
    obtain ⟨s, hs⟩ := h1 y (by simp)
    have hrec := ih (fun z hz => h1 z (by simp [hz]))
    simp [reprElems, hs, hrec, Except.map]

theorem lexCompare_prefix (rc : α → CmpOp → α → Except Err Bool) (op : CmpOp)
    (p q : List α)
    (hpq : List.Forall₂ (fun u v => rc u CmpOp.eq v = Except.ok true) p q)
    (a b : List α) :
    lexCompare rc op (p ++ a) (q ++ b) = lexCompare rc op a b := by
  induction hpq with
  | nil => rfl
  | cons h _ ih => simp [lexCompare, h, ih]

theorem do_sort_buf_perm (rich : RichF α) (keyo : Option (KeyF α)) (rev : Bool)
    (l s : List α) : ((do_sort rich keyo rev l s).1.2).Perm l := by
  cases keyo with
  | none =>
    simpa using try_sort_buf_perm
      (fun a b st => rich (if rev then CmpOp.lt else CmpOp.gt) a b st) id l [] s
  | some kf =>
    simp only [do_sort]
    rcases hmk : mapKeys kf l s with ⟨r, s1, lg⟩
    match r with
    | .error e => simp
    | .ok items =>
      rcases hts : try_sort_by_gt
          (fun (a b : α × α) st => rich (if rev then CmpOp.lt else CmpOp.gt) a.2 b.2 st)
          Prod.snd items [] s1 with ⟨⟨st, buf⟩, s2, lg2⟩
      match st with
      | .ok u =>
        have h1 : buf.Perm items := by
          have h := try_sort_buf_perm
            (fun (a b : α × α) st => rich (if rev then CmpOp.lt else CmpOp.gt) a.2 b.2 st)
            Prod.snd items [] s1
          rw [hts] at h
          simpa using h
        have h2 := mapKeys_ok_fst kf l s items s1 lg hmk
        simp only [hts]
        exact (h1.map Prod.fst).trans (by rw [h2])
      | .error e => simp [hts]

theorem sortOp_contents (rich : RichF α) (keyo : Option (KeyF α)) (rev : Bool)
    (l : List α) :
    (sortOp rich keyo rev l).2.1 = (do_sort rich keyo rev l []).1.2 := by
  simp only [sortOp]
  rcases do_sort rich keyo rev l [] with ⟨⟨res, buf⟩, ph, lg⟩
  match res with
  | .ok u => by_cases h : ph.isEmpty <;> simp [h]
  | .error e => simp

end PyList

namespace PyList

/-- On a buffer of at least two elements, a comparator that always
raises aborts the stable sort at its very first comparison: the error
comes out, the buffer is still in its input order, and exactly one
comparison (of the first two projections) was attempted. -/
theorem try_sort_err_first (gt : β → β → List α → Except Err Bool × List α)
    (prj : β → α) (e : Err) (hgt : ∀ u v st, gt u v st = (Except.error e, st))
    (x y : β) (rest : List β) (s : List α) :
    try_sort_by_gt gt prj (x :: y :: rest) [] s =
      ((Except.error e, x :: y :: rest), s, [Event.cmp (prj x) (prj y)]) := by
  simp [try_sort_by_gt, insertSorted, hgt]

end PyList

/-! ## The claims -/

open PyList

/-- Claim C3: concatenating a list with an operand that is not a list
fails with a type error, while concatenating two lists yields a new
container holding the elements of the first followed by those of the
second; no operand is mutated (the operation returns only the fresh
result and leaves its arguments untouched by construction). -/
theorem claim_C3_concat (L M : List α) (x : Obj α) (hx : ∀ N, x ≠ Obj.list N) :
    concat L (Obj.list M) = Except.ok (L ++ M) ∧
    (∃ msg, concat L x = Except.error (Err.typeError msg)) := by
  refine ⟨rfl, ?_⟩
  cases x with
  | tuple xs => exact ⟨_, rfl⟩
  | list xs => exact absurd rfl (hx xs)
  | iterable rs => exact ⟨_, rfl⟩

/-- Witness for C3 at concrete inputs. -/
theorem claim_C3_concat_witness :
    concat ([1, 2] : List Int) (Obj.list [3]) = Except.ok [1, 2, 3] ∧
    ∃ msg, concat ([1, 2] : List Int) (Obj.tuple [3]) = Except.error (Err.typeError msg) :=
  claim_C3_concat [1, 2] [3] (Obj.tuple [3]) (fun _ h => Obj.noConfusion h)

/-- Claim C4: `pop` defaults its index to -1, normalizes a negative
index by adding the current length, removes and returns the element at
the normalized index, and fails with an index error on an empty
container or an out-of-range normalized index (producing no new
contents, so a failed `pop` leaves the container unchanged);
concretely, popping [1,2,3] yields 3 leaving [1,2], and popping index 0
of [1,2] then yields 1 leaving [2]. -/
theorem claim_C4_pop (i : Int) (l : List α) :
    (pop none l = pop (some (-1)) l) ∧
    (l = [] → pop (some i) l = Except.error (Err.indexError "pop from empty list")) ∧
    (0 ≤ normIdx i l.length → normIdx i l.length < (l.length : Int) →
      ∃ x, l[(normIdx i l.length).toNat]? = some x ∧
        pop (some i) l = Except.ok (x, l.eraseIdx (normIdx i l.length).toNat)) ∧
    (l ≠ [] → (normIdx i l.length < 0 ∨ (l.length : Int) ≤ normIdx i l.length) →
      pop (some i) l = Except.error (Err.indexError "pop index out of range")) ∧
    (pop none ([1, 2, 3] : List Int) = Except.ok (3, [1, 2]) ∧
      pop (some 0) ([1, 2] : List Int) = Except.ok (1, [2])) := by
  refine ⟨rfl, ?_, ?_, ?_, rfl, rfl⟩
  · intro h
    subst h
    rfl
  · intro h0 h1
    have hlen : 0 < l.length := by omega
    have hne : l.isEmpty = false := by
      cases l with
      | nil => simp at hlen
      | cons a as => rfl
    have hnot : ¬(normIdx i l.length < 0 ∨ (l.length : Int) ≤ normIdx i l.length) := by
      omega
    have hlt : (normIdx i l.length).toNat < l.length := by omega
    refine ⟨l.get ⟨(normIdx i l.length).toNat, hlt⟩, ?_, ?_⟩
    · rw [List.getElem?_eq_getElem hlt]
      simp
    · simp only [pop, Option.getD_some, hne, Bool.false_eq_true, if_false, dif_neg hnot]
  · intro hne' hcond
    have hne : l.isEmpty = false := by
      cases l with
      | nil => exact absurd rfl hne'
      | cons a as => rfl
    simp only [pop, Option.getD_some, hne, Bool.false_eq_true, if_false, dif_pos hcond]

/-- Witness for C4 at concrete inputs, exercising the success, the
out-of-range and the empty branches. -/
theorem claim_C4_pop_witness :
    (∃ x, ([10, 20, 30] : List Int)[(normIdx (-1) 3).toNat]? = some x ∧
      pop (some (-1)) ([10, 20, 30] : List Int) =
        Except.ok (x, ([10, 20, 30] : List Int).eraseIdx (normIdx (-1) 3).toNat)) ∧
    pop (some 5) ([1, 2] : List Int) =
      Except.error (Err.indexError "pop index out of range") ∧
    pop (some 0) ([] : List Int) =
      Except.error (Err.indexError "pop from empty list") :=
  ⟨(claim_C4_pop (-1) ([10, 20, 30] : List Int)).2.2.1 (by decide) (by decide),
    (claim_C4_pop 5 ([1, 2] : List Int)).2.2.2.1 (by decide) (by decide),
    (claim_C4_pop 0 ([] : List Int)).2.1 rfl⟩

/-- Claim C7: `extend` (and in-place concatenation via `__iadd__` or the
sequence table's `inplace_concat`) first materializes the whole source
into a temporary sequence and only then appends everything at once; a
materialization failure is propagated and produces no new contents, so
the list is left exactly as it was (no partial append). -/
theorem claim_C7_extend (l : List α) (x : Obj α) :
    (∀ v, try_to_value x = Except.ok v → extend l x = Except.ok (l ++ v)) ∧
    (∀ e, try_to_value x = Except.error e → extend l x = Except.error e) ∧
    (∀ v, extract_cloned Except.ok x = Except.ok v →
      iaddOp l x = Except.ok (l ++ v) ∧ inplace_concat l x = Except.ok (l ++ v)) ∧
    (∀ e, extract_cloned Except.ok x = Except.error e →
      iaddOp l x = Except.error e ∧ inplace_concat l x = Except.error e) := by
  refine ⟨?_, ?_, ?_, ?_⟩
  · intro v h
    simp only [try_to_value] at h
    simp [extend, try_to_value, h, Except.map]
  · intro e h
    simp only [try_to_value] at h
    simp [extend, try_to_value, h, Except.map]
  · intro v h
    simp [iaddOp, inplace_concat, h, Except.map]
  · intro e h
    simp [iaddOp, inplace_concat, h, Except.map]

/-- Witness for C7: a successful extend and one whose iteration fails
mid-way, at concrete inputs. -/
theorem claim_C7_extend_witness :
    extend ([1, 2] : List Int) (Obj.iterable [Except.ok 3, Except.ok 4]) =
      Except.ok [1, 2, 3, 4] ∧
    extend ([1, 2] : List Int)
        (Obj.iterable [Except.ok 3, Except.error (Err.userError "stop"), Except.ok 4]) =
      Except.error (Err.userError "stop") ∧
    iaddOp ([1, 2] : List Int)
        (Obj.iterable [Except.ok 3, Except.error (Err.userError "stop")]) =
      Except.error (Err.userError "stop") :=
  ⟨(claim_C7_extend [1, 2] (Obj.iterable [Except.ok 3, Except.ok 4])).1 [3, 4] rfl,
    (claim_C7_extend [1, 2]
      (Obj.iterable [Except.ok 3, Except.error (Err.userError "stop"), Except.ok 4])).2.1
      (Err.userError "stop") rfl,
    ((claim_C7_extend [1, 2]
      (Obj.iterable [Except.ok 3, Except.error (Err.userError "stop")])).2.2.2
      (Err.userError "stop") rfl).1⟩

/-- Counterexample to claim C8 as stated: on the empty list (n = 0) the
freshly created reverse iterator sits at clamped cursor 0 and is still
active, so its length hint is 0 + 1 = 1, not 0. -/
theorem claim_C8_counterexample : rev_length_hint (reversedIter 0) ≠ 0 := by
  decide

/-- Claim C8 (amended): a fresh reverse iterator over a container of
length n has length hint n for every n ≥ 1, but hint 1 (not 0) for
n = 0, since the saturating cursor n - 1 is 0 and the iterator is still
active; after `set_state p` the cursor is clamped to [0, n] and the
length hint is (min p n) + 1. -/
theorem claim_C8_rev_iter (n p : Nat) :
    (1 ≤ n → rev_length_hint (reversedIter n) = n) ∧
    rev_length_hint (reversedIter 0) = 1 ∧
    (set_state (reversedIter n) n p).position = min p n ∧
    rev_length_hint (set_state (reversedIter n) n p) = min p n + 1 := by
  refine ⟨?_, rfl, rfl, rfl⟩
  intro h
  simp only [rev_length_hint, reversedIter, Bool.false_eq_true, if_false]
  omega

/-- Witness for C8 at concrete inputs. -/
theorem claim_C8_rev_iter_witness :
    rev_length_hint (reversedIter 3) = 3 ∧
    rev_length_hint (set_state (reversedIter 3) 3 7) = min 7 3 + 1 :=
  ⟨(claim_C8_rev_iter 3 7).1 (by decide), (claim_C8_rev_iter 3 7).2.2.2⟩

/-- Claim C9: the repr of an empty list is "[]"; a reentrant repr of the
same instance renders "[...]" instead of recursing; otherwise the repr
is the bracketed comma-joined element representations in order, and a
failing element rendering propagates its error. -/
theorem claim_C9_repr (er : α → Except Err String) (l l₁ l₂ : List α) (x : α)
    (r : α → String) (e : Err) :
    (repr_str er false ([] : List α) = Except.ok "[]") ∧
    (repr_str er true ([] : List α) = Except.ok "[]") ∧
    (l ≠ [] → repr_str er true l = Except.ok "[...]") ∧
    (l ≠ [] → repr_str (fun a => Except.ok (r a)) false l =
      Except.ok ("[" ++ String.intercalate ", " (l.map r) ++ "]")) ∧
    ((∀ y ∈ l₁, ∃ s, er y = Except.ok s) → er x = Except.error e →
      repr_str er false (l₁ ++ x :: l₂) = Except.error e) := by
  refine ⟨rfl, rfl, ?_, ?_, ?_⟩
  · intro hl
    have : l.length ≠ 0 := by simpa using hl
    simp [repr_str, this]
  · intro hl
    have : l.length ≠ 0 := by simpa using hl
    simp [repr_str, this, collection_repr, reprElems_pure, Except.map]
  · intro h1 hx
    have hlen : (l₁ ++ x :: l₂).length ≠ 0 := by simp
    simp [repr_str, hlen, collection_repr, reprElems_err er x e hx l₂ l₁ h1, Except.map]

/-- Witness for C9 at concrete inputs: a cyclic render, an ordinary
render and a failing element. -/
theorem claim_C9_repr_witness :
    repr_str (fun n : Nat => Except.ok (toString n)) true [1, 2] = Except.ok "[...]" ∧
    repr_str (fun n : Nat => Except.ok (toString n)) false [1, 2] =
      Except.ok ("[" ++ String.intercalate ", " ([1, 2].map toString) ++ "]") ∧
    repr_str (fun n : Nat => if n = 2 then Except.error (Err.userError "bad")
        else Except.ok (toString n)) false ([1] ++ 2 :: [3]) =
      Except.error (Err.userError "bad") := by
  refine ⟨?_, ?_, ?_⟩
  · exact (claim_C9_repr (fun n : Nat => Except.ok (toString n)) [1, 2] [] [] 0
      toString (Err.userError "bad")).2.2.1 (by decide)
  · exact (claim_C9_repr (fun n : Nat => Except.ok (toString n)) [1, 2] [] [] 0
      toString (Err.userError "bad")).2.2.2.1 (by decide)
  · exact (claim_C9_repr (fun n : Nat => if n = 2 then Except.error (Err.userError "bad")
      else Except.ok (toString n)) [1, 2] [1] [3] 2 toString (Err.userError "bad")).2.2.2.2
      (by
        intro y hy
        rw [List.mem_singleton] at hy
        subst hy
        exact ⟨toString 1, rfl⟩) rfl

/-- Claim C5: comparing two lists short-circuits eq/ne when the operands
are the same instance; a non-list operand yields not-implemented rather
than an error; otherwise the comparison is elementwise lexicographic:
after any number of pairwise-equal elements, the first differing pair
decides the result under the requested operator (its rich-comparison
error propagating), a strict prefix orders before the longer container
for lt/le and after for gt/ge, and equal length with all elements equal
yields equality. -/
theorem claim_C5_compare (rc : α → CmpOp → α → Except Err Bool) (op : CmpOp)
    (self o : PyListInst α) (p q xs ys : List α) (x y : α) (e : Err)
    (hpq : List.Forall₂ (fun u v => rc u CmpOp.eq v = Except.ok true) p q) :
    (listCmp rc op self CmpArg.nonList = Except.ok PyComparisonValue.notImplemented) ∧
    (self.id = o.id →
      listCmp rc CmpOp.eq self (CmpArg.inst o) =
        Except.ok (PyComparisonValue.implemented true) ∧
      listCmp rc CmpOp.ne self (CmpArg.inst o) =
        Except.ok (PyComparisonValue.implemented false)) ∧
    (self.id ≠ o.id → self.elems = p ++ x :: xs → o.elems = q ++ y :: ys →
      (rc x CmpOp.eq y = Except.ok false →
        (op ≠ CmpOp.eq → op ≠ CmpOp.ne →
          listCmp rc op self (CmpArg.inst o) =
            (rc x op y).map PyComparisonValue.implemented) ∧
        listCmp rc CmpOp.eq self (CmpArg.inst o) =
          Except.ok (PyComparisonValue.implemented false) ∧
        listCmp rc CmpOp.ne self (CmpArg.inst o) =
          Except.ok (PyComparisonValue.implemented true)) ∧
      (rc x CmpOp.eq y = Except.error e →
        listCmp rc op self (CmpArg.inst o) = Except.error e)) ∧
    (self.id ≠ o.id → self.elems = p → o.elems = q ++ y :: ys →
      listCmp rc CmpOp.lt self (CmpArg.inst o) =
        Except.ok (PyComparisonValue.implemented true) ∧
      listCmp rc CmpOp.le self (CmpArg.inst o) =
        Except.ok (PyComparisonValue.implemented true) ∧
      listCmp rc CmpOp.gt self (CmpArg.inst o) =
        Except.ok (PyComparisonValue.implemented false) ∧
      listCmp rc CmpOp.ge self (CmpArg.inst o) =
        Except.ok (PyComparisonValue.implemented false) ∧
      listCmp rc CmpOp.eq self (CmpArg.inst o) =
        Except.ok (PyComparisonValue.implemented false) ∧
      listCmp rc CmpOp.ne self (CmpArg.inst o) =
        Except.ok (PyComparisonValue.implemented true)) ∧
    (self.id ≠ o.id → self.elems = p ++ x :: xs → o.elems = q →
      listCmp rc CmpOp.lt self (CmpArg.inst o) =
        Except.ok (PyComparisonValue.implemented false) ∧
      listCmp rc CmpOp.le self (CmpArg.inst o) =
        Except.ok (PyComparisonValue.implemented false) ∧
      listCmp rc CmpOp.gt self (CmpArg.inst o) =
        Except.ok (PyComparisonValue.implemented true) ∧
      listCmp rc CmpOp.ge self (CmpArg.inst o) =
        Except.ok (PyComparisonValue.implemented true) ∧
      listCmp rc CmpOp.eq self (CmpArg.inst o) =
        Except.ok (PyComparisonValue.implemented false) ∧
      listCmp rc CmpOp.ne self (CmpArg.inst o) =
        Except.ok (PyComparisonValue.implemented true)) ∧
    (self.id ≠ o.id → self.elems = p → o.elems = q →
      listCmp rc CmpOp.eq self (CmpArg.inst o) =
        Except.ok (PyComparisonValue.implemented true) ∧
      listCmp rc CmpOp.ne self (CmpArg.inst o) =
        Except.ok (PyComparisonValue.implemented false) ∧
      listCmp rc CmpOp.le self (CmpArg.inst o) =
        Except.ok (PyComparisonValue.implemented true) ∧
      listCmp rc CmpOp.ge self (CmpArg.inst o) =
        Except.ok (PyComparisonValue.implemented true) ∧
      listCmp rc CmpOp.lt self (CmpArg.inst o) =
        Except.ok (PyComparisonValue.implemented false) ∧
      listCmp rc CmpOp.gt self (CmpArg.inst o) =
        Except.ok (PyComparisonValue.implemented false)) := by
  have hstep : ∀ op', self.id ≠ o.id →
      listCmp rc op' self (CmpArg.inst o) =
        (lexCompare rc op' self.elems o.elems).map PyComparisonValue.implemented := by
    intro op' hid
    simp [listCmp, hid]
  refine ⟨rfl, ?_, ?_, ?_, ?_, ?_⟩
  · intro hid
    constructor <;> simp [listCmp, hid]
  · intro hid hs ho
    constructor
    · intro hf
      refine ⟨?_, ?_, ?_⟩
      · intro hne1 hne2
        rw [hstep op hid, hs, ho, lexCompare_prefix rc op p q hpq]
        cases op <;> simp [lexCompare, hf, Except.map] <;> simp_all
      · rw [hstep CmpOp.eq hid, hs, ho, lexCompare_prefix rc CmpOp.eq p q hpq]
        simp [lexCompare, hf, Except.map]
      · rw [hstep CmpOp.ne hid, hs, ho, lexCompare_prefix rc CmpOp.ne p q hpq]
        simp [lexCompare, hf, Except.map]
    · intro herr
      rw [hstep op hid, hs, ho, lexCompare_prefix rc op p q hpq]
      simp [lexCompare, herr, Except.map]
  · intro hid hs ho
    have hpre : ∀ op', lexCompare rc op' (p ++ []) (q ++ y :: ys) =
        lexCompare rc op' [] (y :: ys) := fun op' => lexCompare_prefix rc op' p q hpq [] (y :: ys)
    simp only [List.append_nil] at hpre
    refine ⟨?_, ?_, ?_, ?_, ?_, ?_⟩ <;>
      rw [hstep _ hid, hs, ho, hpre] <;> simp [lexCompare, cmpLen, Except.map]
  · intro hid hs ho
    have hpre : ∀ op', lexCompare rc op' (p ++ x :: xs) (q ++ []) =
        lexCompare rc op' (x :: xs) [] := fun op' => lexCompare_prefix rc op' p q hpq (x :: xs) []
    simp only [List.append_nil] at hpre
    refine ⟨?_, ?_, ?_, ?_, ?_, ?_⟩ <;>
      rw [hstep _ hid, hs, ho, hpre] <;> simp [lexCompare, cmpLen, Except.map]
  · intro hid hs ho
    have hpre : ∀ op', lexCompare rc op' (p ++ []) (q ++ []) =
        lexCompare rc op' [] [] := fun op' => lexCompare_prefix rc op' p q hpq [] []
    simp only [List.append_nil] at hpre
    refine ⟨?_, ?_, ?_, ?_, ?_, ?_⟩ <;>
      rw [hstep _ hid, hs, ho, hpre] <;> simp [lexCompare, cmpLen, Except.map]

/-- Witness for C5 at concrete inputs: [1,2] vs [1,3] under every shape
of the statement. -/
theorem claim_C5_compare_witness :
    listCmp rcInt CmpOp.lt ⟨0, [1, 2]⟩ (CmpArg.inst ⟨1, [1, 3]⟩) =
      (rcInt 2 CmpOp.lt 3).map PyComparisonValue.implemented ∧
    listCmp rcInt CmpOp.lt ⟨0, [1]⟩ (CmpArg.inst ⟨1, [1, 3]⟩) =
      Except.ok (PyComparisonValue.implemented true) ∧
    listCmp rcInt CmpOp.eq ⟨0, [1]⟩ (CmpArg.inst ⟨1, [1]⟩) =
      Except.ok (PyComparisonValue.implemented true) ∧
    listCmp rcInt CmpOp.eq ⟨5, [1, 2]⟩ (CmpArg.inst ⟨5, [9]⟩) =
      Except.ok (PyComparisonValue.implemented true) ∧
    listCmp rcInt CmpOp.lt ⟨0, [1, 2]⟩ CmpArg.nonList =
      Except.ok PyComparisonValue.notImplemented := by
  have h2 : List.Forall₂ (fun u v => rcInt u CmpOp.eq v = Except.ok true) [1] [1] :=
    List.Forall₂.cons rfl List.Forall₂.nil
  refine ⟨?_, ?_, ?_, ?_, ?_⟩
  · exact (((claim_C5_compare rcInt CmpOp.lt ⟨0, [1, 2]⟩ ⟨1, [1, 3]⟩ [1] [1] [] []
      2 3 (Err.userError "e") h2).2.2.1 (by decide) rfl rfl).1 rfl).1
      (by decide) (by decide)
  · exact ((claim_C5_compare rcInt CmpOp.lt ⟨0, [1]⟩ ⟨1, [1, 3]⟩ [1] [1] [] []
      2 3 (Err.userError "e") h2).2.2.2.1 (by decide) rfl rfl).1
  · exact ((claim_C5_compare rcInt CmpOp.eq ⟨0, [1]⟩ ⟨1, [1]⟩ [1] [1] [] []
      2 3 (Err.userError "e") h2).2.2.2.2.2 (by decide) rfl rfl).1
  · exact ((claim_C5_compare rcInt CmpOp.eq ⟨5, [1, 2]⟩ ⟨5, [9]⟩ [1] [1] [] []
      2 3 (Err.userError "e") h2).2.1 rfl).1
  · exact (claim_C5_compare rcInt CmpOp.lt ⟨0, [1, 2]⟩ ⟨1, [1, 3]⟩ [1] [1] [] []
      2 3 (Err.userError "e") h2).1

/-- Claim C6: every entry of the generic mapping table (length,
subscript get, subscript set-or-delete) and of the generic sequence
table (length, concat, repeat, item get/set/delete, contains, in-place
concat, in-place repeat) produces the identical observable result as
the corresponding named method, for every implementation of the
external index/slice/contains/multiplication collaborators; in
particular sequence-table concat applies exactly the named concat's
same-kind type check. -/
theorem claim_C6_protocol_tables (C : Collab α σ) (l : List α) (needle : SeqIndex σ)
    (value : α) (n i : Int) (x : α) (other : Obj α) (M : List α) :
    (mapping_length l = lenOp l) ∧
    (mapping_subscript C l needle = dunderGetitem C l needle) ∧
    (mapping_ass_subscript C l needle (some value) = dunderSetitem C l needle value) ∧
    (mapping_ass_subscript C l needle none = dunderDelitem C l needle) ∧
    (sequence_length l = lenOp l) ∧
    (sequence_concat l other = dunderAdd l other) ∧
    (sequence_repeat C l n = dunderMul C l n) ∧
    (dunderGetitem C l (SeqIndex.int i) = (sequence_item C l i).map GetItemRes.single) ∧
    (sequence_ass_item C l i (some value) = dunderSetitem C l (SeqIndex.int i) value) ∧
    (sequence_ass_item C l i none = dunderDelitem C l (SeqIndex.int i)) ∧
    (sequence_contains C l x = dunderContains C l x) ∧
    (sequence_inplace_concat l other = iaddOp l other) ∧
    (sequence_inplace_repeat C l n = dunderImul C l n) ∧
    (sequence_concat l (Obj.list M) = Except.ok (l ++ M)) ∧
    ((∀ N, other ≠ Obj.list N) → ∃ msg,
      sequence_concat l other = Except.error (Err.typeError msg) ∧
      dunderAdd l other = Except.error (Err.typeError msg)) := by
  refine ⟨rfl, rfl, rfl, rfl, rfl, rfl, rfl, rfl, rfl, rfl, rfl, rfl, rfl, rfl, ?_⟩
  intro hx
  cases other with
  | tuple xs => exact ⟨_, rfl, rfl⟩
  | list xs => exact absurd rfl (hx xs)
  | iterable rs => exact ⟨_, rfl, rfl⟩

/-- Witness for C6 at a concrete collaborator bundle and inputs. -/
theorem claim_C6_protocol_tables_witness :
    (mapping_subscript trivialCollab [1, 2, 3] (SeqIndex.int 1) =
      dunderGetitem trivialCollab [1, 2, 3] (SeqIndex.int 1)) ∧
    (∃ msg,
      sequence_concat ([1] : List Int) (Obj.tuple [2]) = Except.error (Err.typeError msg) ∧
      dunderAdd ([1] : List Int) (Obj.tuple [2]) = Except.error (Err.typeError msg)) :=
  ⟨(claim_C6_protocol_tables trivialCollab [1, 2, 3] (SeqIndex.int 1) 0 1 1 0
      (Obj.tuple [2]) []).2.1,
    (claim_C6_protocol_tables trivialCollab ([1] : List Int) (SeqIndex.int 1) 0 1 1 0
      (Obj.tuple [2]) []).2.2.2.2.2.2.2.2.2.2.2.2.2.2
      (fun _ h => Obj.noConfusion h)⟩

/-- Claim C2: sorting with a key function invokes the key exactly once
per element (in order, before any comparison is made), compares only
the projected keys, and leaves the container holding exactly the
original elements ordered by projected key; the sort is stable — every
projected-key class keeps its pre-sort relative order — for both
reverse=false and reverse=true, the descending order being produced by
the opposite compare operator rather than a negated comparison. -/
theorem claim_C2_sort_with_key (w : α → Int) (k : α → α) (reverse : Bool) (l : List α) :
    ∃ result cmps,
      sortOp (pureRich w) (some (pureKey k)) reverse l =
        (Except.ok (), result, l.map Event.key ++ cmps) ∧
      result.Perm l ∧
      (reverse = false → result.Pairwise (fun a b => w (k a) ≤ w (k b))) ∧
      (reverse = true → result.Pairwise (fun a b => w (k b) ≤ w (k a))) ∧
      (∀ c : Int, result.filter (fun z => decide (w (k z) = c)) =
        l.filter (fun z => decide (w (k z) = c))) ∧
      (∀ e ∈ cmps, ∃ a b, a ∈ l ∧ b ∈ l ∧ e = Event.cmp (k a) (k b)) := by
  obtain ⟨cmps, hds, hcm⟩ := do_sort_pureKey w k reverse l []
  obtain ⟨h1, h2, h3, h4⟩ := keyed_sorted_props w k reverse l
  refine ⟨_, cmps, ?_, h1, h2, h3, h4, hcm⟩
  simp only [sortOp, hds, List.isEmpty_nil, if_true]

/-- Witness for C2: sorting [1,3,2] by negated value. -/
theorem claim_C2_sort_with_key_witness :
    ∃ result cmps,
      sortOp (pureRich (fun z : Int => z)) (some (pureKey (fun z => -z))) false [1, 3, 2] =
        (Except.ok (), result, [Event.key 1, Event.key 3, Event.key 2] ++ cmps) ∧
      result.Perm [1, 3, 2] ∧
      (false = false → result.Pairwise (fun a b : Int => -a ≤ -b)) ∧
      (false = true → result.Pairwise (fun a b : Int => -b ≤ -a)) ∧
      (∀ c : Int, result.filter (fun z : Int => decide (-z = c)) =
        ([1, 3, 2] : List Int).filter (fun z => decide (-z = c))) ∧
      (∀ e ∈ cmps, ∃ a b, a ∈ ([1, 3, 2] : List Int) ∧ b ∈ ([1, 3, 2] : List Int) ∧
        e = Event.cmp (-a) (-b)) :=
  claim_C2_sort_with_key (fun z : Int => z) (fun z => -z) false [1, 3, 2]

/-- Claim C1: when the key function reentrantly appends to the list
being sorted, the sort call fails with the mutated-during-sort value
error, yet the container ends up holding exactly the stably sorted
pre-sort elements (the reentrant additions are discarded, as the final
contents are a permutation of the pre-sort contents); when instead the
key function itself raises, that error is returned instead of the
mutated-during-sort one, even though reentrant appends happened; and
when the comparator raises (here: an always-failing comparator, first
invoked on the first two projected keys), its error is likewise
returned instead of the mutated-during-sort one — again for every
appending key function — with the container left in its pre-sort
order. -/
theorem claim_C1_sort_reentrant (w : α → Int) (k : α → α) (app : α → List α)
    (P : α → Bool) (err : Err) (reverse : Bool) (l : List α) :
    (appAll app l ≠ [] →
      ∃ result cmps,
        sortOp (pureRich w) (some (appendKey k app)) reverse l =
          (Except.error (Err.valueError "list modified during sort"), result,
            l.map Event.key ++ cmps) ∧
        result.Perm l ∧
        (reverse = false → result.Pairwise (fun a b => w (k a) ≤ w (k b))) ∧
        (reverse = true → result.Pairwise (fun a b => w (k b) ≤ w (k a))) ∧
        (∀ c : Int, result.filter (fun z => decide (w (k z) = c)) =
          l.filter (fun z => decide (w (k z) = c)))) ∧
    ((∃ x ∈ l, P x = true) →
      ∃ lg, sortOp (pureRich w) (some (condKey P err k app)) reverse l =
        (Except.error err, l, lg)) ∧
    (∀ x y rest, l = x :: y :: rest →
      sortOp (errRich err) (some (appendKey k app)) reverse l =
        (Except.error err, l, l.map Event.key ++ [Event.cmp (k x) (k y)])) := by
  refine ⟨?_, ?_, ?_⟩
  · intro hmod
    obtain ⟨cmps, hds, hcm⟩ := do_sort_appendKey w k app reverse l []
    obtain ⟨h1, h2, h3, h4⟩ := keyed_sorted_props w k reverse l
    refine ⟨_, cmps, ?_, h1, h2, h3, h4⟩
    have hph : ([] ++ appAll app l).isEmpty = false := by
      rw [List.nil_append]
      cases hA : appAll app l with
      | nil => exact absurd hA hmod
      | cons a as => rfl
    simp only [sortOp, hds, hph, Bool.false_eq_true, if_false]
  · intro hex
    obtain ⟨s₂, lg, hmk⟩ := mapKeys_condKey_err P err k app l [] hex
    refine ⟨lg, ?_⟩
    simp only [sortOp, do_sort, hmk]
  · intro x y rest hl
    subst hl
    have hmk := mapKeys_appendKey k app (x :: y :: rest) []
    have hts := try_sort_err_first
      (fun (a b : α × α) st =>
        errRich err (if reverse then CmpOp.lt else CmpOp.gt) a.2 b.2 st)
      Prod.snd err (fun u v st => rfl)
      (x, k x) (y, k y) (rest.map (fun z => (z, k z)))
      ([] ++ appAll app (x :: y :: rest))
    simp only [sortOp, do_sort, hmk, List.map_cons, hts]

/-- Witness for C1: a key that appends its element while sorting [2,1],
a key that fails on element 1 while also appending, and an
always-failing comparator under the same appending key. -/
theorem claim_C1_sort_reentrant_witness :
    (∃ result cmps,
      sortOp (pureRich (fun z : Int => z)) (some (appendKey (fun z => z) (fun z => [z])))
          false [2, 1] =
        (Except.error (Err.valueError "list modified during sort"), result,
          [Event.key 2, Event.key 1] ++ cmps) ∧
      result.Perm [2, 1] ∧
      (false = false → result.Pairwise (fun a b : Int => a ≤ b)) ∧
      (false = true → result.Pairwise (fun a b : Int => b ≤ a)) ∧
      (∀ c : Int, result.filter (fun z : Int => decide (z = c)) =
        ([2, 1] : List Int).filter (fun z => decide (z = c)))) ∧
    (∃ lg,
      sortOp (pureRich (fun z : Int => z))
          (some (condKey (fun z => decide (z = 1)) (Err.userError "boom") (fun z => z)
            (fun z => [z]))) false [2, 1] =
        (Except.error (Err.userError "boom"), [2, 1], lg)) ∧
    (sortOp (errRich (Err.userError "boom"))
        (some (appendKey (fun z : Int => z) (fun z => [z]))) false [2, 1] =
      (Except.error (Err.userError "boom"), [2, 1],
        [Event.key 2, Event.key 1] ++ [Event.cmp 2 1])) :=
  ⟨(claim_C1_sort_reentrant (fun z : Int => z) (fun z => z) (fun z => [z])
      (fun z => decide (z = 1)) (Err.userError "boom") false [2, 1]).1 (by decide),
    (claim_C1_sort_reentrant (fun z : Int => z) (fun z => z) (fun z => [z])
      (fun z => decide (z = 1)) (Err.userError "boom") false [2, 1]).2.1
      ⟨1, by decide, by decide⟩,
    (claim_C1_sort_reentrant (fun z : Int => z) (fun z => z) (fun z => [z])
      (fun z => decide (z = 1)) (Err.userError "boom") false [2, 1]).2.2
      2 1 [] rfl⟩

/-- Claim C10: whenever a sort call returns an error — a key or
comparator failure, with the callbacks not mutating the list — the
container afterwards holds exactly the same multiset of elements as
before the call (in the embedding the final contents are a permutation
of the original contents, for any callbacks whatsoever); and when the
error arose during the key-projection pass, before any comparison, the
elements are moreover still in their original order. -/
theorem claim_C10_failed_sort_preserves (rich : RichF α) (keyo : Option (KeyF α))
    (kf : KeyF α) (rev : Bool) (l : List α) (e : Err) :
    (∀ res lg, sortOp rich keyo rev l = (Except.error e, res, lg) → res.Perm l) ∧
    ((mapKeys kf l []).1 = Except.error e →
      ∃ lg, sortOp rich (some kf) rev l = (Except.error e, l, lg)) := by
  constructor
  · intro res lg h
    have hc := sortOp_contents rich keyo rev l
    rw [h] at hc
    simp only at hc
    rw [hc]
    exact do_sort_buf_perm rich keyo rev l []
  · intro hmk
    rcases hm : mapKeys kf l [] with ⟨r, s1, lg⟩
    rw [hm] at hmk
    simp only at hmk
    subst hmk
    refine ⟨lg, ?_⟩
    simp [sortOp, do_sort, hm]

/-- Witness for C10: a key function that fails immediately on [5,6]
leaves the list in its original order alongside the propagated error;
the returned contents are a permutation of the input. -/
theorem claim_C10_failed_sort_preserves_witness :
    (∃ lg, sortOp (pureRich (fun z : Int => z))
        (some (fun _ s => (Except.error (Err.userError "key"), s))) false [5, 6] =
      (Except.error (Err.userError "key"), [5, 6], lg)) ∧
    ([5, 6] : List Int).Perm [5, 6] :=
  ⟨(claim_C10_failed_sort_preserves (pureRich (fun z : Int => z))
      (some (fun _ s => (Except.error (Err.userError "key"), s)))
      (fun _ s => (Except.error (Err.userError "key"), s)) false [5, 6]
      (Err.userError "key")).2 rfl,
    (claim_C10_failed_sort_preserves (pureRich (fun z : Int => z))
      (some (fun _ s => (Except.error (Err.userError "key"), s)))
      (fun _ s => (Except.error (Err.userError "key"), s)) false [5, 6]
      (Err.userError "key")).1 [5, 6] [Event.key 5] rfl⟩

